import Mathlib

/-!
Shallow embedding of the `tail` package (hpcloud-style file tailer) and of its
`watch.FileChanges` coalescing-signal helper.

The Go source consists of `tail.go` (the `Tail` engine: `File`, `Tell`,
`reopen`, `readLine`, `tailFileSync`, `waitForChanges`, `seekTo`, `sendLine`)
and the `FileChanges` channel struct with its `NotifyModified` /
`NotifyTruncated` / `NotifyDeleted` operations built on `sendOnlyIfEmpty`.

Pure data (file contents, cursor positions, emitted lines) is modelled
directly; OS interaction (the results of `os.Open`, `os.File.Seek`,
`BlockUntilExists`) is modelled by passing the outcome of each call as an
explicit parameter, so that every control-flow branch of the source is
represented.  The engine loop is modelled for the run in which the caller
never cancels (`tomb.Dying` never fires), which is the execution the
functional claims are about.
-/

namespace Tail

/-- The distinguishable error values of the package.  `errStop`,
`errInvalidConfig`, `errSeek`, `errFileCreationDetectionFailure` and
`errFileOpen` are the five sentinels declared at the top of `tail.go`;
`osNotExist` models the `*os.PathError` returned by `os.Open` for a missing
file (for which `os.IsNotExist` is true); `osOther` models any other error
coming back from the OS; `tombDying` models `tomb.ErrDying`; `killfSeek`
models the formatted error produced by `Killf("Seek error on %s: %s", ...)`
and `killfRead` the one produced by `Killf("Error reading %s: %s", ...)`. -/
inductive GoError where
  | errStop
  | errInvalidConfig
  | errSeek
  | errFileCreationDetectionFailure
  | errFileOpen
  | osNotExist
  | osOther (msg : String)
  | tombDying
  | killfSeek (filename : String) (msg : String)
  | killfRead (filename : String) (msg : String)
deriving DecidableEq, Repr

/-- Model of `Line` from `tail.go`: the text, a timestamp (abstracted to a `Nat`
clock value standing for `time.Now()`), and the `Err` slot. -/
structure Line where
  text : String
  time : Nat
  err : Option GoError
deriving DecidableEq, Repr

/-- Model of `NewLine` from `tail.go`: builds a `Line` carrying the current time and a
nil error. -/
def NewLine (now : Nat) (text : String) : Line :=
  { text := text, time := now, err := none }

/-- Model of `SeekInfo` from `tail.go`: arguments to `os.Seek`. -/
structure SeekInfo where
  offset : Int
  whence : Nat
deriving DecidableEq, Repr

/-- Model of `Config` from `tail.go`. -/
structure Config where
  location : Option SeekInfo
  reOpen : Bool
  mustExist : Bool
  poll : Bool
  pipe : Bool
  follow : Bool
deriving DecidableEq, Repr

/-- Model of `sendLine` from `tail.go`: wraps the text in a `Line` with the current
time and a nil error (`tail.Lines <- &Line{line, time.Now(), nil}`). -/
def sendLine (now : Nat) (text : String) : Line :=
  { text := text, time := now, err := none }

/-!
## `bufio.Reader.ReadString('\n')`

`readStringNL cs` models `ReadString('\n')` applied to a reader whose
remaining input is `cs`: it returns the data read (up to and including the
first newline), an end-of-file flag (`true` exactly when no newline was
found before the data ran out — in which case the data read so far is still
returned, as the Go documentation specifies), and the remaining input.
-/

def readStringNL : List Char → List Char × Bool × List Char
  | [] => ([], true, [])
  | c :: cs =>
    if c = '\n' then ([c], false, cs)
    else
      let r := readStringNL cs
      (c :: r.1, r.2.1, r.2.2)

theorem readStringNL_append_eq (cs : List Char) :
    (readStringNL cs).1 ++ (readStringNL cs).2.2 = cs := by
  induction cs with
  | nil => simp [readStringNL]
  | cons c cs ih =>
    by_cases h : c = '\n'
    · simp [readStringNL, h]
    · simp [readStringNL, h, ih]

theorem readStringNL_eof (cs : List Char) (h : '\n' ∉ cs) :
    readStringNL cs = (cs, true, []) := by
  induction cs with
  | nil => simp [readStringNL]
  | cons c cs ih =>
    simp only [List.mem_cons, not_or] at h
    have hc : ¬(c = '\n') := fun hc => h.1 hc.symm
    simp [readStringNL, hc, ih h.2]

theorem readStringNL_eof_iff (cs : List Char) :
    (readStringNL cs).2.1 = true ↔ '\n' ∉ cs := by
  constructor
  · intro h hmem
    induction cs with
    | nil => simp at hmem
    | cons c cs ih =>
      by_cases hc : c = '\n'
      · simp [readStringNL, hc] at h
      · simp only [readStringNL, hc, if_false] at h
        rcases List.mem_cons.mp hmem with h1 | h2
        · exact hc h1.symm
        · exact ih h h2
  · intro h
    rw [readStringNL_eof cs h]

theorem readStringNL_not_eof (cs : List Char) (h : (readStringNL cs).2.1 = false) :
    (readStringNL cs).1 ≠ [] := by
  cases cs with
  | nil => simp [readStringNL] at h
  | cons c cs =>
    by_cases hc : c = '\n'
    · simp [readStringNL, hc]
    · simp [readStringNL, hc]

/-- When a full line is read, the data is a newline-free prefix followed by
the newline character, and the rest is everything after that newline. -/
theorem readStringNL_line (l r : List Char) (h : '\n' ∉ l) :
    readStringNL (l ++ '\n' :: r) = (l ++ ['\n'], false, r) := by
  induction l with
  | nil => simp [readStringNL]
  | cons c cs ih =>
    simp only [List.mem_cons, not_or] at h
    have hc : ¬(c = '\n') := fun hc => h.1 hc.symm
    simp [readStringNL, hc, ih h.2]

theorem readStringNL_length_le (cs : List Char) :
    (readStringNL cs).1.length ≤ cs.length := by
  conv_rhs => rw [← readStringNL_append_eq cs]
  simp

/-!
## `strings.TrimRight(line, "\n")`

`trimRightNL` removes every trailing newline character, exactly as
`strings.TrimRight` with the cut set `"\n"` does.
-/

def trimRightNL (cs : List Char) : List Char :=
  (cs.reverse.dropWhile (fun c => c = '\n')).reverse

theorem dropWhile_eq_self_of_head_not {p : Char → Bool} :
    ∀ (l : List Char), (∀ c ∈ l, p c = false) → l.dropWhile p = l
  | [], _ => rfl
  | c :: cs, h => by
    simp [List.dropWhile, h c (List.mem_cons_self c cs)]

theorem trimRightNL_no_newline (l : List Char) (h : '\n' ∉ l) :
    trimRightNL l = l := by
  unfold trimRightNL
  rw [dropWhile_eq_self_of_head_not]
  · simp
  · intro c hc
    simp only [List.mem_reverse] at hc
    simp only [decide_eq_false_iff_not]
    exact fun hceq => h (hceq ▸ hc)

/-- Trimming a line consisting of newline-free data followed by the
terminator yields the data. -/
theorem trimRightNL_line (l : List Char) (h : '\n' ∉ l) :
    trimRightNL (l ++ ['\n']) = l := by
  unfold trimRightNL
  have h1 : (l ++ ['\n']).reverse = '\n' :: l.reverse := by simp
  have h2 : List.dropWhile (fun c => decide (c = '\n')) ('\n' :: l.reverse)
      = List.dropWhile (fun c => decide (c = '\n')) l.reverse := by
    simp [List.dropWhile]
  rw [h1, h2, dropWhile_eq_self_of_head_not]
  · simp
  · intro c hc
    rw [List.mem_reverse] at hc
    simp only [decide_eq_false_iff_not]
    exact fun hceq => h (hceq ▸ hc)

/-!
## The expected output, in the words of the specification

The specification describes the content of a file as "a sequence of
newline-terminated lines (possibly ending in an unterminated fragment)" and
the expected delivery as "exactly those lines in file order with the
terminator stripped", plus "the final unterminated fragment as a last line
when it is non-empty".  `specLines` is written from those words (this is the
spec side of the refinement claim C1; the engine side is `runLoop` below).
-/

/-- Split a character list at every newline; the last element of the result
is the trailing (possibly empty) unterminated fragment. -/
def splitNL : List Char → List (List Char)
  | [] => [[]]
  | c :: cs =>
    if c = '\n' then [] :: splitNL cs
    else
      match splitNL cs with
      | [] => [[c]]
      | l :: ls => (c :: l) :: ls

theorem splitNL_ne_nil (cs : List Char) : splitNL cs ≠ [] := by
  cases cs with
  | nil => simp [splitNL]
  | cons c cs =>
    by_cases h : c = '\n'
    · simp [splitNL, h]
    · simp only [splitNL, h, if_false]
      cases splitNL cs <;> simp

/-- The lines the specification expects: every newline-terminated line with
its terminator stripped, then the final unterminated fragment when it is
non-empty. -/
def specLines (cs : List Char) : List String :=
  let parts := splitNL cs
  let full := parts.dropLast.map (fun l => String.mk l)
  match parts.getLast? with
  | none => full
  | some frag => if frag = [] then full else full ++ [String.mk frag]

theorem splitNL_no_newline (cs : List Char) (h : '\n' ∉ cs) :
    splitNL cs = [cs] := by
  induction cs with
  | nil => simp [splitNL]
  | cons c cs ih =>
    simp only [List.mem_cons, not_or] at h
    have hc : ¬(c = '\n') := fun hc => h.1 hc.symm
    simp [splitNL, hc, ih h.2]

theorem splitNL_line (l r : List Char) (h : '\n' ∉ l) :
    splitNL (l ++ '\n' :: r) = l :: splitNL r := by
  induction l with
  | nil => simp [splitNL]
  | cons c cs ih =>
    simp only [List.mem_cons, not_or] at h
    have hc : ¬(c = '\n') := fun hc => h.1 hc.symm
    have ihr := ih h.2
    simp only [List.cons_append, splitNL, hc, if_false, List.append_eq, ihr]

theorem specLines_no_newline (cs : List Char) (h : '\n' ∉ cs) :
    specLines cs = if cs = [] then [] else [String.mk cs] := by
  unfold specLines
  rw [splitNL_no_newline cs h]
  simp only [List.dropLast_single, List.map_nil, List.getLast?_singleton]
  by_cases hc : cs = [] <;> simp [hc]

theorem specLines_line (l r : List Char) (h : '\n' ∉ l) :
    specLines (l ++ '\n' :: r) = String.mk l :: specLines r := by
  unfold specLines
  rw [splitNL_line l r h]
  have hne := splitNL_ne_nil r
  rcases hr : splitNL r with _ | ⟨p, ps⟩
  · exact absurd hr hne
  · simp only [List.dropLast_cons_of_ne_nil (by simp : p :: ps ≠ ([] : List (List Char))),
      List.map_cons, List.getLast?_cons_cons]
    rcases hlast : (p :: ps).getLast? with _ | frag
    · simp at hlast
    · by_cases hfrag : frag = [] <;> simp [hfrag]

/-!
## The read loop of `tailFileSync`

A loop iteration (the body of the `for` loop in `tailFileSync`) works on a
state consisting of the logical stream position `pos` — the file cursor
minus the bytes still buffered in the `bufio.Reader`, which is exactly what
`Tell()` reports — and the `offset` variable of the loop.  The file content
is fixed for the duration of a run (appends only matter once the engine is
parked in `waitForChanges`).

The iteration is modelled for the run in which no OS call fails (`Tell` and
`seekTo` succeed; a failure there would `Kill` the tomb) and the caller has
not cancelled (`tail.Dying()` has not fired).
-/

structure LoopSt where
  pos : Nat
  offset : Nat
deriving DecidableEq, Repr

/-- The observable outcome of one iteration of the read loop:
`cont line st` — a full line was read and sent, the loop continues;
`ret line termErr` — the loop returns (only in the `!Follow` end-of-file
branch), possibly sending a final fragment first, with the terminal error it
would record; `wait st` — end of file while following, the loop proceeds to
`waitForChanges` with the (possibly rewound) state `st`. -/
inductive StepRes where
  | cont (line : Line) (st : LoopSt)
  | ret (line : Option Line) (termErr : Option GoError)
  | wait (st : LoopSt)
deriving DecidableEq, Repr

/-- One iteration of the `for` loop of `tailFileSync`:
record `offset := Tell()` unless the file is a named pipe; `readLine`;
on success send the trimmed line; on end of file either return (not
following; a non-empty leftover fragment is sent first), or — when
following — rewind to the recorded offset if a non-empty fragment was
buffered (`seekTo{Offset: offset, Whence: 0}`, which also resets the
reader) and fall through to the wait. -/
def loopStep (cfg : Config) (content : List Char) (now : Nat) (st : LoopSt) : StepRes :=
  let off := if cfg.pipe = false then st.pos else st.offset
  let r := readStringNL (content.drop st.pos)
  if r.2.1 = false then
    .cont (sendLine now (String.mk (trimRightNL r.1))) ⟨st.pos + r.1.length, off⟩
  else if cfg.follow = false then
    .ret (if r.1 = [] then none else some (sendLine now (String.mk r.1))) none
  else if r.1 = [] then
    .wait ⟨st.pos, off⟩
  else
    .wait ⟨off, off⟩

theorem loopStep_cont_pos {cfg : Config} {content : List Char} {now : Nat}
    {st : LoopSt} {l : Line} {st' : LoopSt}
    (h : loopStep cfg content now st = .cont l st') :
    st.pos < st'.pos ∧ st.pos < content.length := by
  unfold loopStep at h
  dsimp only at h
  split at h
  next he =>
    injection h with h1 h2
    have hne : (readStringNL (content.drop st.pos)).1 ≠ [] :=
      readStringNL_not_eof _ he
    have hdrop : content.drop st.pos ≠ [] := by
      intro hd
      rw [hd] at he
      simp [readStringNL] at he
    have hlen : 0 < (readStringNL (content.drop st.pos)).1.length :=
      List.length_pos.mpr hne
    have hpos : st.pos < content.length := by
      by_contra hge
      exact hdrop (List.drop_eq_nil_of_le (Nat.le_of_not_lt hge))
    have hst : st'.pos = st.pos + (readStringNL (content.drop st.pos)).1.length := by
      rw [← h2]
    omega
  next =>
    split at h
    next => exact absurd h (by simp)
    next =>
      split at h
      next => exact absurd h (by simp)
      next => exact absurd h (by simp)

/-- The read loop, run until it either returns (the `!Follow` end-of-file
branch) or reaches `waitForChanges` (the `Follow` branch): the lines sent,
the terminal error recorded at return (if the loop returned), and the state
at the wait (if it parked). -/
def runLoop (cfg : Config) (content : List Char) (now : Nat) (st : LoopSt) :
    List Line × Option GoError × Option LoopSt :=
  match h : loopStep cfg content now st with
  | .cont l st' =>
    let r := runLoop cfg content now st'
    (l :: r.1, r.2)
  | .ret l t => (l.toList, t, none)
  | .wait st' => ([], none, some st')
termination_by content.length - st.pos
decreasing_by
  have := loopStep_cont_pos h
  omega

/-- The complete `tailFileSync` run for a non-following configuration,
starting at the beginning of the file (no `Location`): the lines delivered
on the `Lines` channel, whether the deferred `close` has run (it runs
exactly when the goroutine returns), and the terminal error recorded on the
tomb. -/
structure SyncResult where
  lines : List Line
  closed : Bool
  termErr : Option GoError
deriving DecidableEq, Repr

def tailFileSyncNoFollow (cfg : Config) (content : List Char) (now : Nat) : SyncResult :=
  let r := runLoop cfg content now ⟨0, 0⟩
  { lines := r.1, closed := r.2.2.isNone, termErr := r.2.1 }

theorem runLoop_cont {cfg : Config} {content : List Char} {now : Nat}
    {st : LoopSt} {l : Line} {st' : LoopSt}
    (h : loopStep cfg content now st = .cont l st') :
    runLoop cfg content now st =
      (l :: (runLoop cfg content now st').1, (runLoop cfg content now st').2) := by
  rw [runLoop]
  split
  next l' st'' heq =>
    rw [h] at heq
    injection heq with h1 h2
    rw [h1, h2]
  next l' t heq => rw [h] at heq; exact absurd heq (by simp)
  next st'' heq => rw [h] at heq; exact absurd heq (by simp)

theorem runLoop_ret {cfg : Config} {content : List Char} {now : Nat}
    {st : LoopSt} {l : Option Line} {t : Option GoError}
    (h : loopStep cfg content now st = .ret l t) :
    runLoop cfg content now st = (l.toList, t, none) := by
  rw [runLoop]
  split
  next l' st'' heq => rw [h] at heq; exact absurd heq (by simp)
  next l' t' heq =>
    rw [h] at heq
    injection heq with h1 h2
    rw [h1, h2]
  next st'' heq => rw [h] at heq; exact absurd heq (by simp)

theorem runLoop_wait {cfg : Config} {content : List Char} {now : Nat}
    {st : LoopSt} {st' : LoopSt}
    (h : loopStep cfg content now st = .wait st') :
    runLoop cfg content now st = ([], none, some st') := by
  rw [runLoop]
  split
  next l' st'' heq => rw [h] at heq; exact absurd heq (by simp)
  next l' t' heq => rw [h] at heq; exact absurd heq (by simp)
  next st'' heq =>
    rw [h] at heq
    injection heq with h1
    rw [h1]

theorem exists_first_newline (cs : List Char) (h : '\n' ∈ cs) :
    ∃ l r, cs = l ++ '\n' :: r ∧ '\n' ∉ l := by
  induction cs with
  | nil => simp at h
  | cons c cs ih =>
    by_cases hc : c = '\n'
    · exact ⟨[], cs, by simp [hc], by simp⟩
    · rcases List.mem_cons.mp h with h1 | h2
      · exact absurd h1.symm hc
      · obtain ⟨l, r, hcs, hnl⟩ := ih h2
        refine ⟨c :: l, r, by simp [hcs], ?_⟩
        simp only [List.mem_cons, not_or]
        exact ⟨fun he => hc he.symm, hnl⟩

/-- With `Follow = false`, the loop started anywhere delivers exactly the
spec's lines of the remaining content, returns, and records no error. -/
theorem runLoop_noFollow (cfg : Config) (content : List Char) (now : Nat)
    (hf : cfg.follow = false) (st : LoopSt) :
    runLoop cfg content now st =
      ((specLines (content.drop st.pos)).map (sendLine now), none, none) := by
  generalize hn : content.length - st.pos = n
  induction n using Nat.strong_induction_on generalizing st with
  | _ n ih =>
    by_cases hmem : '\n' ∈ content.drop st.pos
    · -- a full line is available: the loop emits it and continues
      obtain ⟨l, r, hcs, hnl⟩ := exists_first_newline _ hmem
      have hread : readStringNL (content.drop st.pos) = (l ++ ['\n'], false, r) := by
        rw [hcs]; exact readStringNL_line l r hnl
      have hstep : loopStep cfg content now st =
          .cont (sendLine now (String.mk l))
            ⟨st.pos + (l.length + 1), if cfg.pipe = false then st.pos else st.offset⟩ := by
        unfold loopStep
        rw [hread]
        simp [trimRightNL_line l hnl]
      have hpos := loopStep_cont_pos hstep
      have hdrop : content.drop (st.pos + (l.length + 1)) = r := by
        have h1 : content.drop (st.pos + (l.length + 1)) =
            (content.drop st.pos).drop (l.length + 1) := by
          rw [List.drop_drop, Nat.add_comm]
        rw [h1, hcs]
        have h2 : l ++ '\n' :: r = (l ++ ['\n']) ++ r := by simp
        rw [h2]
        have h3 : l.length + 1 = (l ++ ['\n']).length := by simp
        rw [h3, List.drop_left]
      rw [runLoop_cont hstep]
      rw [ih (content.length - (st.pos + (l.length + 1))) (by omega) _ rfl]
      simp only [hdrop]
      rw [hcs, specLines_line l r hnl]
      simp
    · -- end of data: not following, so the loop returns
      have hread : readStringNL (content.drop st.pos) = (content.drop st.pos, true, []) :=
        readStringNL_eof _ hmem
      have hstep : loopStep cfg content now st =
          .ret (if content.drop st.pos = [] then none
                else some (sendLine now (String.mk (content.drop st.pos)))) none := by
        unfold loopStep
        rw [hread]
        simp [hf]
      rw [runLoop_ret hstep]
      rw [specLines_no_newline _ hmem]
      by_cases hnil : content.drop st.pos = [] <;> simp [hnil]

theorem loopStep_cont_err {cfg : Config} {content : List Char} {now : Nat}
    {st : LoopSt} {l : Line} {st' : LoopSt}
    (h : loopStep cfg content now st = .cont l st') : l.err = none := by
  unfold loopStep at h
  dsimp only at h
  split at h
  next =>
    injection h with h1 h2
    rw [← h1]
    rfl
  next =>
    split at h
    next => exact absurd h (by simp)
    next =>
      split at h
      next => exact absurd h (by simp)
      next => exact absurd h (by simp)

theorem loopStep_ret_err {cfg : Config} {content : List Char} {now : Nat}
    {st : LoopSt} {l : Line} {t : Option GoError}
    (h : loopStep cfg content now st = .ret (some l) t) : l.err = none := by
  unfold loopStep at h
  dsimp only at h
  split at h
  next => exact absurd h (by simp)
  next =>
    split at h
    next =>
      injection h with h1 h2
      split at h1
      next => exact absurd h1 (by simp)
      next =>
        injection h1 with h1
        rw [← h1]
        rfl
    next =>
      split at h
      next => exact absurd h (by simp)
      next => exact absurd h (by simp)

theorem runLoop_err_none (cfg : Config) (content : List Char) (now : Nat) (st : LoopSt) :
    ∀ l ∈ (runLoop cfg content now st).1, l.err = none := by
  generalize hn : content.length - st.pos = n
  induction n using Nat.strong_induction_on generalizing st with
  | _ n ih =>
    rcases hstep : loopStep cfg content now st with ⟨l', st'⟩ | ⟨ol, t⟩ | st'
    · rw [runLoop_cont hstep]
      intro l hl
      rcases List.mem_cons.mp hl with h1 | h2
      · rw [h1]
        exact loopStep_cont_err hstep
      · have hpos := loopStep_cont_pos hstep
        exact ih (content.length - st'.pos) (by omega) st' rfl l h2
    · rw [runLoop_ret hstep]
      intro l hl
      rcases ol with _ | l''
      · simp at hl
      · simp only [Option.toList_some, List.mem_singleton] at hl
        rw [hl]
        exact loopStep_ret_err hstep
    · rw [runLoop_wait hstep]
      intro l hl
      simp at hl

/-!
## Claims C1, C2 and C10 about the read loop
-/

/-- C1: for every configuration with `Follow = false`, tailing a file whose
content is a sequence of newline-terminated lines (possibly ending in an
unterminated fragment) delivers exactly those lines in file order with the
terminator stripped, delivers the final unterminated fragment as a last line
when it is non-empty, then closes the output sequence with no error
recorded. -/
theorem noFollow_delivers_lines_then_closes (cfg : Config) (content : List Char) (now : Nat)
    (hf : cfg.follow = false) :
    tailFileSyncNoFollow cfg content now =
      { lines := (specLines content).map (sendLine now), closed := true, termErr := none } := by
  unfold tailFileSyncNoFollow
  rw [runLoop_noFollow cfg content now hf ⟨0, 0⟩]
  simp

theorem noFollow_delivers_lines_then_closes_witness :
    tailFileSyncNoFollow
        { location := none, reOpen := false, mustExist := false, poll := false,
          pipe := false, follow := false } ['a', '\n', 'b', '\n'] 7 =
      { lines := [sendLine 7 (String.mk ['a']), sendLine 7 (String.mk ['b'])],
        closed := true, termErr := none } := by
  rw [noFollow_delivers_lines_then_closes _ ['a', '\n', 'b', '\n'] 7 rfl]
  rfl

/-- C2: when `Follow = true` and a read reaches end of data with a non-empty
unterminated fragment (the file not being a named pipe, so that the loop has
recorded `offset = Tell()` just before the read), the fragment is not
emitted: the iteration ends in the wait state with the cursor rewound to the
recorded offset and the reader's buffered fragment discarded, so that — as
the second conjunct shows — once the terminator is appended the very next
read from the rewound state re-reads the fragment and emits it as a complete
line. -/
theorem follow_fragment_rewinds_and_waits (cfg : Config) (content : List Char) (now : Nat)
    (st : LoopSt) (hf : cfg.follow = true) (hp : cfg.pipe = false)
    (hnl : '\n' ∉ content.drop st.pos) (hne : content.drop st.pos ≠ []) :
    loopStep cfg content now st = .wait ⟨st.pos, st.pos⟩ ∧
    ∀ rest : List Char,
      loopStep cfg (content ++ '\n' :: rest) now ⟨st.pos, st.pos⟩ =
        .cont (sendLine now (String.mk (content.drop st.pos)))
          ⟨content.length + 1, st.pos⟩ := by
  have hposlt : st.pos < content.length := by
    by_contra hge
    exact hne (List.drop_eq_nil_of_le (Nat.le_of_not_lt hge))
  constructor
  · have hread : readStringNL (content.drop st.pos) = (content.drop st.pos, true, []) :=
      readStringNL_eof _ hnl
    unfold loopStep
    rw [hread]
    simp [hf, hp, hne]
  · intro rest
    have hdrop : (content ++ '\n' :: rest).drop st.pos =
        content.drop st.pos ++ '\n' :: rest :=
      List.drop_append_of_le_length (Nat.le_of_lt hposlt)
    have hread : readStringNL ((content ++ '\n' :: rest).drop st.pos) =
        (content.drop st.pos ++ ['\n'], false, rest) := by
      rw [hdrop]
      exact readStringNL_line _ rest hnl
    have hlen : (content.drop st.pos).length = content.length - st.pos :=
      List.length_drop st.pos content
    unfold loopStep
    rw [hread]
    simp only [if_pos rfl, hp, trimRightNL_line _ hnl, List.length_append,
      List.length_singleton]
    have harith : st.pos + ((content.drop st.pos).length + 1) = content.length + 1 := by
      omega
    rw [harith]
    simp

theorem follow_fragment_rewinds_and_waits_witness :
    loopStep { location := none, reOpen := false, mustExist := false, poll := false,
               pipe := false, follow := true } ['a', 'b'] 3 ⟨0, 0⟩ = .wait ⟨0, 0⟩ ∧
    loopStep { location := none, reOpen := false, mustExist := false, poll := false,
               pipe := false, follow := true } ['a', 'b', '\n'] 3 ⟨0, 0⟩ =
      .cont (sendLine 3 (String.mk ['a', 'b'])) ⟨3, 0⟩ := by
  have h := follow_fragment_rewinds_and_waits
    { location := none, reOpen := false, mustExist := false, poll := false,
      pipe := false, follow := true } ['a', 'b'] 3 ⟨0, 0⟩ rfl rfl (by decide) (by decide)
  exact ⟨h.1, h.2 []⟩

/-- C10: every `Line` value the engine delivers has a nil `Err` field: the
only delivery path is `sendLine`, which always stores `nil`, as does the
`NewLine` constructor; consequently every line of any loop run has a nil
error slot. -/
theorem delivered_line_err_always_nil :
    (∀ now s, (sendLine now s).err = none) ∧
    (∀ now s, (NewLine now s).err = none) ∧
    (∀ cfg content now st, ∀ l ∈ (runLoop cfg content now st).1, l.err = none) :=
  ⟨fun _ _ => rfl, fun _ _ => rfl, fun cfg content now st => runLoop_err_none cfg content now st⟩

theorem delivered_line_err_always_nil_witness :
    (sendLine 0 "a").err = none ∧ (NewLine 0 "a").err = none ∧
    (sendLine 0 (String.mk ['x'])).err = none := by
  refine ⟨delivered_line_err_always_nil.1 0 "a", delivered_line_err_always_nil.2.1 0 "a", ?_⟩
  apply delivered_line_err_always_nil.2.2
    { location := none, reOpen := false, mustExist := false, poll := false,
      pipe := false, follow := false } ['x', '\n'] 0 ⟨0, 0⟩
  rw [runLoop_noFollow _ _ _ rfl ⟨0, 0⟩]
  decide

/-!
## `File` (Start)

`FileStart fs config` models `File(filename, config)`.  `fs` is the state of
the file system at the path: `some content` when the file exists, `none`
when it does not.  The outcome records, next to the returned error (if any),
whether a `*Tail` handle was returned, whether the background goroutine
`tailFileSync` was launched (`go t.tailFileSync()`), and whether any file
I/O was attempted (`os.Open` in the `MustExist` branch is the only I/O
`File` performs; watcher construction touches no file).
-/

structure StartOutcome where
  retErr : Option GoError
  tailReturned : Bool
  taskLaunched : Bool
  ioAttempted : Bool
deriving DecidableEq, Repr

def FileStart (fs : Option (List Char)) (config : Config) : StartOutcome :=
  if config.reOpen && !config.follow then
    { retErr := some .errInvalidConfig, tailReturned := false,
      taskLaunched := false, ioAttempted := false }
  else if config.mustExist then
    match fs with
    | none =>
      { retErr := some .osNotExist, tailReturned := false,
        taskLaunched := false, ioAttempted := true }
    | some _ =>
      { retErr := none, tailReturned := true,
        taskLaunched := true, ioAttempted := true }
  else
    { retErr := none, tailReturned := true,
      taskLaunched := true, ioAttempted := false }

/-- C5: calling `File` with `ReOpen = true` and `Follow = false` fails with
the invalid-configuration error before any I/O is performed and before any
background task is launched; a configuration that is not of that shape never
trips this validation. -/
theorem start_invalid_config_validation (cfg : Config) (fs : Option (List Char)) :
    (cfg.reOpen = true → cfg.follow = false →
      FileStart fs cfg =
        { retErr := some .errInvalidConfig, tailReturned := false,
          taskLaunched := false, ioAttempted := false }) ∧
    (¬(cfg.reOpen = true ∧ cfg.follow = false) →
      (FileStart fs cfg).retErr ≠ some .errInvalidConfig) := by
  constructor
  · intro hr hf
    unfold FileStart
    simp [hr, hf]
  · intro hv
    unfold FileStart
    have hcond : (cfg.reOpen && !cfg.follow) = false := by
      rcases hb : cfg.reOpen <;> rcases hb2 : cfg.follow <;> simp_all
    rw [hcond]
    simp only [Bool.false_eq_true, if_false]
    by_cases hm : cfg.mustExist
    · rcases fs with _ | c <;> simp [hm]
    · simp [hm]

theorem start_invalid_config_validation_witness :
    FileStart none
        { location := none, reOpen := true, mustExist := false, poll := false,
          pipe := false, follow := false } =
      { retErr := some .errInvalidConfig, tailReturned := false,
        taskLaunched := false, ioAttempted := false } ∧
    (FileStart none
        { location := none, reOpen := true, mustExist := false, poll := false,
          pipe := false, follow := true }).retErr ≠ some .errInvalidConfig := by
  constructor
  · exact (start_invalid_config_validation _ none).1 rfl rfl
  · exact (start_invalid_config_validation _ none).2 (by simp)

/-- C6 as stated is false on the code: with `MustExist = true` on a
non-existent path, `File` returns the error produced by `os.Open` itself
(`return nil, err`), which is the not-exist `*os.PathError` — not the
`ErrFileOpen` ("Unable to open file") sentinel that the spec's
`FileOpenError` names and that `reopen` returns for non-not-exist open
failures. -/
theorem mustExist_absent_error_is_os_error_cex :
    (FileStart none
        { location := none, reOpen := false, mustExist := true, poll := false,
          pipe := false, follow := false }).retErr = some .osNotExist ∧
    (FileStart none
        { location := none, reOpen := false, mustExist := true, poll := false,
          pipe := false, follow := false }).retErr ≠ some .errFileOpen := by
  constructor
  · rfl
  · intro h
    simp [FileStart] at h

/-- C6 (amended): with `MustExist = true` on a non-existent path, `File`
fails immediately and synchronously, returning the underlying OS open error
(the not-exist error) directly from `Start`, before launching any background
tailing task. -/
theorem mustExist_absent_fails_synchronously (cfg : Config)
    (hm : cfg.mustExist = true) (hv : ¬(cfg.reOpen = true ∧ cfg.follow = false)) :
    FileStart none cfg =
      { retErr := some .osNotExist, tailReturned := false,
        taskLaunched := false, ioAttempted := true } := by
  unfold FileStart
  have hcond : (cfg.reOpen && !cfg.follow) = false := by
    rcases hb : cfg.reOpen <;> rcases hb2 : cfg.follow <;> simp_all
  rw [hcond]
  simp [hm]

theorem mustExist_absent_fails_synchronously_witness :
    FileStart none
        { location := none, reOpen := false, mustExist := true, poll := false,
          pipe := false, follow := true } =
      { retErr := some .osNotExist, tailReturned := false,
        taskLaunched := false, ioAttempted := true } :=
  mustExist_absent_fails_synchronously _ rfl (by simp)

/-!
## `Tell`

`Tell` first checks `tail.file == nil`; with no open file it returns
`(0, nil)` at once.  Otherwise it calls `file.Seek(0, os.SEEK_CUR)` — which
yields the OS cursor of the handle — and, when that call succeeds, subtracts
`reader.Buffered()`, the number of bytes sitting unconsumed in the buffered
reader.  `seekRet`/`seekErr` are the two return values of that `Seek` call.
-/

def Tell (fileOpen : Bool) (seekRet : Int) (seekErr : Option GoError)
    (buffered : Nat) : Int × Option GoError :=
  if fileOpen = false then (0, none)
  else
    match seekErr with
    | none => (seekRet - buffered, none)
    | some e => (seekRet, some e)

/-- C8: `Tell()` returns the current file cursor minus the number of
unconsumed buffered bytes in the reader, and with no open file it returns
offset zero with no error. -/
theorem tell_cursor_minus_buffered :
    (∀ cursor : Int, ∀ buffered : Nat,
      Tell true cursor none buffered = (cursor - buffered, none)) ∧
    (∀ seekRet : Int, ∀ seekErr : Option GoError, ∀ buffered : Nat,
      Tell false seekRet seekErr buffered = (0, none)) :=
  ⟨fun _ _ => rfl, fun _ _ _ => rfl⟩

/-!
## `reopen` and `waitForChanges`

`reopen` loops: `os.Open`; on a not-exist failure it blocks on
`watcher.BlockUntilExists` and retries; on any other failure it returns
`ErrFileOpen`; the wait itself can end with `tomb.ErrDying` (returned as-is)
or another error (returned as `ErrFileCreationDetectionFailure`).  Each OS
interaction of one round of the loop is one `OpenStep`; `reopen` is `none`
when the observed steps run out before the loop decides (the loop is still
retrying).
-/

/-- The result of one `BlockUntilExists` call. -/
inductive BlockRes where
  | created
  | dying
  | failed
deriving DecidableEq, Repr

/-- One round of the `reopen` retry loop: the open succeeds yielding the new
file's content, or fails with not-exist and the subsequent existence wait
ends as recorded, or fails with some other error. -/
inductive OpenStep where
  | opens (content : List Char)
  | absent (w : BlockRes)
  | fails
deriving DecidableEq, Repr

def reopen : List OpenStep → Option (Except GoError (List Char))
  | [] => none
  | .opens c :: _ => some (.ok c)
  | .absent .created :: rest => reopen rest
  | .absent .dying :: _ => some (.error .tombDying)
  | .absent .failed :: _ => some (.error .errFileCreationDetectionFailure)
  | .fails :: _ => some (.error .errFileOpen)

/-- The change event the `select` in `waitForChanges` observes first. -/
inductive ChangeEvent where
  | modified
  | truncated
  | deleted
  | dying
deriving DecidableEq, Repr

/-- Everything `waitForChanges` did and returned: the error it returned
(`none` = returned `nil`), whether `closeFile` ran on the old handle (it is
the first statement of `reopen`), whether a new handle was opened, whether
`openReader` installed a fresh `bufio.Reader`, whether `tail.changes` was
set to `nil`, and the stream position at which reading resumes when a new
handle was opened (a fresh `os.Open` handle has cursor `0` and the fresh
reader holds no buffered bytes). -/
structure WaitOutcome where
  res : Option GoError
  oldClosed : Bool
  reopenedNew : Bool
  freshReader : Bool
  changesCleared : Bool
  resumePos : Option Nat
deriving DecidableEq, Repr

def waitForChanges (cfg : Config) (ev : ChangeEvent) (steps : List OpenStep) :
    Option WaitOutcome :=
  match ev with
  | .modified =>
    some { res := none, oldClosed := false, reopenedNew := false,
           freshReader := false, changesCleared := false, resumePos := none }
  | .deleted =>
    if cfg.reOpen then
      match reopen steps with
      | none => none
      | some (.ok _) =>
        some { res := none, oldClosed := true, reopenedNew := true,
               freshReader := true, changesCleared := true, resumePos := some 0 }
      | some (.error e) =>
        some { res := some e, oldClosed := true, reopenedNew := false,
               freshReader := false, changesCleared := true, resumePos := none }
    else
      some { res := some .errStop, oldClosed := false, reopenedNew := false,
             freshReader := false, changesCleared := true, resumePos := none }
  | .truncated =>
    match reopen steps with
    | none => none
    | some (.ok _) =>
      some { res := none, oldClosed := true, reopenedNew := true,
             freshReader := true, changesCleared := false, resumePos := some 0 }
    | some (.error e) =>
      some { res := some e, oldClosed := true, reopenedNew := false,
             freshReader := false, changesCleared := false, resumePos := none }
  | .dying =>
    some { res := some .errStop, oldClosed := false, reopenedNew := false,
           freshReader := false, changesCleared := false, resumePos := none }

/-- The caller of `waitForChanges` inside `tailFileSync`
(`if err := tail.waitForChanges(); err != nil { if err != ErrStop
{ tail.Kill(err) }; return }`): `none` means the loop continues; `some t`
means the loop returns with `t` recorded as the terminal error on the tomb
(`none` when `Kill` was not called). -/
def loopAfterWait : Option GoError → Option (Option GoError)
  | none => none
  | some e => some (if e = .errStop then none else some e)

/-- C3: for every configuration, a `Truncated` signal while waiting makes
`waitForChanges` close and reopen the file with a fresh reader — whatever
the `ReOpen` setting — and return `nil`, so no error reaches the caller and
the loop just continues. -/
theorem truncated_always_reopens (cfg : Config) (steps : List OpenStep) (c : List Char)
    (h : reopen steps = some (.ok c)) :
    waitForChanges cfg .truncated steps =
      some { res := none, oldClosed := true, reopenedNew := true,
             freshReader := true, changesCleared := false, resumePos := some 0 } ∧
    loopAfterWait none = none := by
  constructor
  · unfold waitForChanges
    rw [h]
  · rfl

theorem truncated_always_reopens_witness :
    waitForChanges
        { location := none, reOpen := false, mustExist := false, poll := false,
          pipe := false, follow := true } .truncated [.opens ['x']] =
      some { res := none, oldClosed := true, reopenedNew := true,
             freshReader := true, changesCleared := false, resumePos := some 0 } ∧
    loopAfterWait none = none :=
  truncated_always_reopens _ [.opens ['x']] ['x'] rfl

/-- C4: with `Follow = true` and `ReOpen = false`, a `Deleted` signal makes
`waitForChanges` return the `ErrStop` sentinel without reopening anything,
and the loop then exits without recording it as a terminal error
(`loopAfterWait` yields `some none`: return, `Kill` not called), so no
further lines are delivered. -/
theorem deleted_no_reopen_terminates_cleanly (cfg : Config) (steps : List OpenStep)
    (hf : cfg.follow = true) (hr : cfg.reOpen = false) :
    waitForChanges cfg .deleted steps =
      some { res := some .errStop, oldClosed := false, reopenedNew := false,
             freshReader := false, changesCleared := true, resumePos := none } ∧
    loopAfterWait (some .errStop) = some none := by
  constructor
  · unfold waitForChanges
    simp [hr]
  · rfl

theorem deleted_no_reopen_terminates_cleanly_witness :
    waitForChanges
        { location := none, reOpen := false, mustExist := false, poll := false,
          pipe := false, follow := true } .deleted [] =
      some { res := some .errStop, oldClosed := false, reopenedNew := false,
             freshReader := false, changesCleared := true, resumePos := none } ∧
    loopAfterWait (some .errStop) = some none :=
  deleted_no_reopen_terminates_cleanly _ [] rfl rfl

/-!
## The initial seek of `tailFileSync`

After the first open (and only there — the reopen path of `waitForChanges`
never touches `tail.Location`), `tailFileSync` applies the configured
`Location` with a single `file.Seek` call; a failure of that call is fatal
via `Killf("Seek error on %s: %s", ...)`.  `seekErr` is the error of the one
OS `Seek` call (`none` = success); `seeksApplied` counts the `Seek` calls
made for `Location`.
-/

structure InitOutcome where
  termErr : Option GoError
  seeksApplied : Nat
deriving DecidableEq, Repr

def initialSeek (cfg : Config) (filename : String) (seekErr : Option String) :
    InitOutcome :=
  match cfg.location with
  | none => { termErr := none, seeksApplied := 0 }
  | some _ =>
    match seekErr with
    | none => { termErr := none, seeksApplied := 1 }
    | some msg => { termErr := some (.killfSeek filename msg), seeksApplied := 1 }

/-- An error of the seek-error kind: either the `ErrSeek` sentinel (returned
by `seekTo`) or the formatted seek error `Killf` records in `tailFileSync`. -/
def isSeekErrorKind : GoError → Bool
  | .errSeek => true
  | .killfSeek _ _ => true
  | _ => false

/-- Whenever `waitForChanges` reopened the file, reading resumes at position
`0` of the newly opened file. -/
theorem waitOutcome_resume_zero {cfg : Config} {ev : ChangeEvent} {steps : List OpenStep}
    {out : WaitOutcome} (hout : waitForChanges cfg ev steps = some out)
    (hnew : out.reopenedNew = true) : out.resumePos = some 0 := by
  rcases ev with _ | _ | _ | _ <;> simp only [waitForChanges] at hout
  · -- modified
    cases hout
    simp at hnew
  · -- truncated
    rcases hre : reopen steps with _ | exc
    · rw [hre] at hout
      simp at hout
    · rcases exc with e | c
      · rw [hre] at hout
        cases hout
        simp at hnew
      · rw [hre] at hout
        cases hout
        rfl
  · -- deleted
    by_cases hr : cfg.reOpen = true
    · rw [if_pos hr] at hout
      rcases hre : reopen steps with _ | exc
      · rw [hre] at hout
        simp at hout
      · rcases exc with e | c
        · rw [hre] at hout
          cases hout
          simp at hnew
        · rw [hre] at hout
          cases hout
          rfl
    · rw [if_neg hr] at hout
      cases hout
      simp at hnew
  · -- dying
    cases hout
    simp at hnew

/-- C7: the configured initial seek position is applied exactly once, on the
first open (`seeksApplied = 1` when a `Location` is configured, `0`
otherwise); a failure of this initial seek is fatal with the seek-error
kind; and a reopen after rotation or truncation applies no initial seek —
the outcome of `waitForChanges` is independent of `Location`, and whenever
it reopened the file, reading resumes at position `0` of the new file. -/
theorem initial_seek_once_and_reopen_from_start (cfg : Config) (filename : String)
    (msg : String) (ev : ChangeEvent) (steps : List OpenStep)
    (loc : Option SeekInfo) (hloc : cfg.location ≠ none) :
    (∀ seekErr, (initialSeek cfg filename seekErr).seeksApplied = 1) ∧
    ((initialSeek cfg filename (some msg)).termErr = some (.killfSeek filename msg) ∧
      isSeekErrorKind (.killfSeek filename msg) = true) ∧
    (∀ cfg' : Config, waitForChanges { cfg' with location := loc } ev steps =
      waitForChanges cfg' ev steps) ∧
    (∀ out, waitForChanges cfg ev steps = some out → out.reopenedNew = true →
      out.resumePos = some 0) := by
  obtain ⟨si, hsi⟩ := Option.ne_none_iff_exists'.mp hloc
  refine ⟨fun seekErr => ?_, ⟨?_, rfl⟩, fun cfg' => rfl,
    fun out hout hnew => waitOutcome_resume_zero hout hnew⟩
  · unfold initialSeek
    rw [hsi]
    rcases seekErr <;> rfl
  · unfold initialSeek
    rw [hsi]

theorem initial_seek_once_and_reopen_from_start_witness :
    (initialSeek
        { location := some { offset := 0, whence := 2 }, reOpen := true,
          mustExist := false, poll := false, pipe := false, follow := true }
        "log.txt" none).seeksApplied = 1 ∧
    (initialSeek
        { location := some { offset := 0, whence := 2 }, reOpen := true,
          mustExist := false, poll := false, pipe := false, follow := true }
        "log.txt" (some "EBADF")).termErr = some (.killfSeek "log.txt" "EBADF") ∧
    (waitForChanges
        { location := some { offset := 0, whence := 2 }, reOpen := true,
          mustExist := false, poll := false, pipe := false, follow := true }
        .truncated [.opens []]).map WaitOutcome.resumePos = some (some 0) := by
  have h := initial_seek_once_and_reopen_from_start
    { location := some { offset := 0, whence := 2 }, reOpen := true,
      mustExist := false, poll := false, pipe := false, follow := true }
    "log.txt" "EBADF" .truncated [.opens []] none (by simp)
  refine ⟨h.1 none, h.2.1.1, ?_⟩
  have h4 := h.2.2.2 _ rfl rfl
  rw [show (waitForChanges
      { location := some { offset := 0, whence := 2 }, reOpen := true,
        mustExist := false, poll := false, pipe := false, follow := true }
      .truncated [.opens []]) =
    some { res := none, oldClosed := true, reopenedNew := true,
           freshReader := true, changesCleared := false, resumePos := some 0 } from rfl]
  rfl

end Tail

namespace Watch

/-!
## `watch.FileChanges` and `sendOnlyIfEmpty`

The three signal channels are created by `NewFileChanges` with
`make(chan bool)` — unbuffered, capacity zero.  A channel's state is the
number of values sitting in its buffer (always `0` here, since the capacity
is `0`) and whether a receiver goroutine is currently blocked on it.  On an
unbuffered channel, the non-blocking send
`select { case ch <- true: default: }` of `sendOnlyIfEmpty` hands the value
to a blocked receiver when one is there and otherwise takes the `default`
branch at once: it never blocks and never adds to the buffer. -/

structure ChanState where
  queued : Nat
  recvReady : Bool
deriving DecidableEq, Repr

inductive SendOutcome where
  | delivered
  | dropped
deriving DecidableEq, Repr

structure SendRes where
  chan : ChanState
  outcome : SendOutcome
  blocked : Bool
deriving DecidableEq, Repr

def sendOnlyIfEmpty (ch : ChanState) : SendRes :=
  if ch.recvReady then
    { chan := { queued := ch.queued, recvReady := false }, outcome := .delivered,
      blocked := false }
  else
    { chan := ch, outcome := .dropped, blocked := false }

structure FileChanges where
  modified : ChanState
  truncated : ChanState
  deleted : ChanState
deriving DecidableEq, Repr

/-- Model of `NewFileChanges`: three fresh unbuffered channels, nothing queued, no
receiver yet. -/
def NewFileChanges : FileChanges :=
  { modified := { queued := 0, recvReady := false },
    truncated := { queued := 0, recvReady := false },
    deleted := { queued := 0, recvReady := false } }

def NotifyModified (fc : FileChanges) : FileChanges × SendOutcome × Bool :=
  let r := sendOnlyIfEmpty fc.modified
  ({ fc with modified := r.chan }, r.outcome, r.blocked)

def NotifyTruncated (fc : FileChanges) : FileChanges × SendOutcome × Bool :=
  let r := sendOnlyIfEmpty fc.truncated
  ({ fc with truncated := r.chan }, r.outcome, r.blocked)

def NotifyDeleted (fc : FileChanges) : FileChanges × SendOutcome × Bool :=
  let r := sendOnlyIfEmpty fc.deleted
  ({ fc with deleted := r.chan }, r.outcome, r.blocked)

/-- The events that touch the channels of a `FileChanges` over its life:
the three notify operations, and a consumer arriving at (or abandoning) a
blocking receive on one of the three channels. -/
inductive FcOp where
  | notifyMod
  | notifyTrunc
  | notifyDel
  | recvArriveMod
  | recvArriveTrunc
  | recvArriveDel
  | recvLeaveMod
  | recvLeaveTrunc
  | recvLeaveDel
deriving DecidableEq, Repr

def applyOp (fc : FileChanges) : FcOp → FileChanges
  | .notifyMod => (NotifyModified fc).1
  | .notifyTrunc => (NotifyTruncated fc).1
  | .notifyDel => (NotifyDeleted fc).1
  | .recvArriveMod => { fc with modified := { fc.modified with recvReady := true } }
  | .recvArriveTrunc => { fc with truncated := { fc.truncated with recvReady := true } }
  | .recvArriveDel => { fc with deleted := { fc.deleted with recvReady := true } }
  | .recvLeaveMod => { fc with modified := { fc.modified with recvReady := false } }
  | .recvLeaveTrunc => { fc with truncated := { fc.truncated with recvReady := false } }
  | .recvLeaveDel => { fc with deleted := { fc.deleted with recvReady := false } }

def applyOps (fc : FileChanges) (ops : List FcOp) : FileChanges :=
  ops.foldl applyOp fc

theorem sendOnlyIfEmpty_queued (ch : ChanState) :
    (sendOnlyIfEmpty ch).chan.queued = ch.queued := by
  unfold sendOnlyIfEmpty
  by_cases h : ch.recvReady = true <;> simp [h]

theorem applyOp_queued (fc : FileChanges) (op : FcOp) :
    (applyOp fc op).modified.queued = fc.modified.queued ∧
    (applyOp fc op).truncated.queued = fc.truncated.queued ∧
    (applyOp fc op).deleted.queued = fc.deleted.queued := by
  rcases op <;>
    simp [applyOp, NotifyModified, NotifyTruncated, NotifyDeleted, sendOnlyIfEmpty_queued]

theorem applyOps_queued (ops : List FcOp) (fc : FileChanges) :
    (applyOps fc ops).modified.queued = fc.modified.queued ∧
    (applyOps fc ops).truncated.queued = fc.truncated.queued ∧
    (applyOps fc ops).deleted.queued = fc.deleted.queued := by
  induction ops generalizing fc with
  | nil => exact ⟨rfl, rfl, rfl⟩
  | cons op ops ih =>
    have h1 := applyOp_queued fc op
    have h2 := ih (applyOp fc op)
    unfold applyOps at h2 ⊢
    simp only [List.foldl_cons]
    omega

/-- C9: each of the three notify operations is built on the non-blocking
send-or-drop `sendOnlyIfEmpty`: it never blocks, it never changes the number
of occurrences queued in the channel, a notification arriving while no
consumer is waiting is dropped with the state unchanged, and over any life
of a `FileChanges` created by `NewFileChanges` at most one occurrence of
each signal is ever pending. -/
theorem notify_never_blocks_never_queues (fc : FileChanges) (ops : List FcOp) :
    ((NotifyModified fc).2.2 = false ∧ (NotifyTruncated fc).2.2 = false ∧
      (NotifyDeleted fc).2.2 = false) ∧
    ((NotifyModified fc).1.modified.queued = fc.modified.queued ∧
      (NotifyTruncated fc).1.truncated.queued = fc.truncated.queued ∧
      (NotifyDeleted fc).1.deleted.queued = fc.deleted.queued) ∧
    (fc.modified.recvReady = false → NotifyModified fc = (fc, .dropped, false)) ∧
    (fc.truncated.recvReady = false → NotifyTruncated fc = (fc, .dropped, false)) ∧
    (fc.deleted.recvReady = false → NotifyDeleted fc = (fc, .dropped, false)) ∧
    ((applyOps NewFileChanges ops).modified.queued ≤ 1 ∧
      (applyOps NewFileChanges ops).truncated.queued ≤ 1 ∧
      (applyOps NewFileChanges ops).deleted.queued ≤ 1) := by
  refine ⟨⟨?_, ?_, ?_⟩, ⟨?_, ?_, ?_⟩, ?_, ?_, ?_, ?_⟩
  · unfold NotifyModified sendOnlyIfEmpty
    by_cases h : fc.modified.recvReady = true <;> simp [h]
  · unfold NotifyTruncated sendOnlyIfEmpty
    by_cases h : fc.truncated.recvReady = true <;> simp [h]
  · unfold NotifyDeleted sendOnlyIfEmpty
    by_cases h : fc.deleted.recvReady = true <;> simp [h]
  · exact sendOnlyIfEmpty_queued fc.modified
  · exact sendOnlyIfEmpty_queued fc.truncated
  · exact sendOnlyIfEmpty_queued fc.deleted
  · intro h
    unfold NotifyModified sendOnlyIfEmpty
    simp [h]
  · intro h
    unfold NotifyTruncated sendOnlyIfEmpty
    simp [h]
  · intro h
    unfold NotifyDeleted sendOnlyIfEmpty
    simp [h]
  · have h := applyOps_queued ops NewFileChanges
    have h0 : NewFileChanges.modified.queued = 0 := rfl
    have h1 : NewFileChanges.truncated.queued = 0 := rfl
    have h2 : NewFileChanges.deleted.queued = 0 := rfl
    omega

theorem notify_never_blocks_never_queues_witness :
    (NotifyModified NewFileChanges).2.2 = false ∧
    NotifyModified NewFileChanges = (NewFileChanges, .dropped, false) ∧
    (applyOps NewFileChanges [.recvArriveMod, .notifyMod, .notifyTrunc]).modified.queued ≤ 1 := by
  have h := notify_never_blocks_never_queues NewFileChanges
    [.recvArriveMod, .notifyMod, .notifyTrunc]
  exact ⟨h.1.1, h.2.2.1 rfl, h.2.2.2.2.2.1⟩

end Watch
